import Mathlib

/-!
Verification of the weave-bot-orb request-correlation relay and calendar
frontend.

The repository sources under `src/` contain the calendar web UI
(a Vue single-file component, whose script we embed below for the
grouping and edit-form claims) together with build configuration.
The request-correlation relay core (Correlation Store, Ingress
Listener, Callback Receiver, Message Updater, Timeout Sweeper) is not
among the provided source files, so its operations are modelled from
the specification (spec.md §3–§4.6) and marked as such.
-/

namespace WeaveBot

/-- Modelled from the spec: the `state` field of a `ParseRequest`
(spec §3, §4.1).  The relay core's source is not in the repository. -/
inductive RState where
  | pending
  | dispatched
  | completed
  | failed
  | timed_out
  deriving DecidableEq, Repr

/-- A state with no outgoing transition (spec glossary, "terminal state"). -/
def RState.isTerminal : RState → Bool
  | .completed => true
  | .failed => true
  | .timed_out => true
  | _ => false

/-- Modelled from the spec: the `ParseRequest` record, the sole entity of
the data model (spec §3).  Timestamps are abstracted as naturals. -/
structure ParseRequest where
  id : Nat
  source_message_ref : String
  status_message_ref : Option String
  agent_request_id : Option String
  state : RState
  result_ref : Option String
  created_at : Nat
  updated_at : Nat
  deriving DecidableEq, Repr

/-- Modelled from the spec: the Correlation Store, a mapping from a request
to its current state and identifiers (spec §2, §4.2); `nextId` generates
the locally generated primary key. -/
structure Store where
  recs : List ParseRequest
  nextId : Nat
  deriving DecidableEq, Repr

def Store.empty : Store := ⟨[], 0⟩

/-- Lookup `get(id)` (spec §4.1 contract). -/
def Store.lookup (s : Store) (id : Nat) : Option ParseRequest :=
  s.recs.find? (fun r => r.id = id)

/-- Lookup `get(agent_request_id)` (spec §4.1 contract). -/
def Store.lookupByAgent (s : Store) (a : String) : Option ParseRequest :=
  s.recs.find? (fun r => r.agent_request_id = some a)

/-- A request still being processed (spec §3 invariants:
state in \x7bpending, dispatched\x7d). -/
def isActive (r : ParseRequest) : Bool :=
  r.state = RState.pending || r.state = RState.dispatched

/-- Modelled from the spec: result of `create` (spec §4.1, §7). -/
inductive CreateResult where
  | created (id : Nat)
  | duplicateActiveRequest
  deriving DecidableEq, Repr

/-- Modelled from the spec: `create(req) -> id`, failing with
`DuplicateActiveRequest` when an active request for the same
`source_message_ref` already exists (spec §4.1, §3 invariants). -/
def Store.create (s : Store) (src : String) (statusRef : Option String)
    (now : Nat) : CreateResult × Store :=
  if s.recs.any (fun r => r.source_message_ref = src && isActive r) then
    (CreateResult.duplicateActiveRequest, s)
  else
    (CreateResult.created s.nextId,
      { recs := { id := s.nextId, source_message_ref := src,
                  status_message_ref := statusRef, agent_request_id := none,
                  state := RState.pending, result_ref := none,
                  created_at := now, updated_at := now } :: s.recs,
        nextId := s.nextId + 1 })

/-- Modelled from the spec: result of `transition` (spec §4.1). -/
inductive TransitionResult where
  | ok
  | staleTransition
  | notFound
  deriving DecidableEq, Repr

/-- Modelled from the spec: the `fields` argument of `transition`: a partial
update carrying the agent identifier assigned at dispatch and the result
reference delivered at completion (spec §3, §4.1). -/
structure TFields where
  agent_request_id : Option String
  result_ref : Option String
  deriving DecidableEq, Repr

def TFields.none_ : TFields := ⟨none, none⟩

/-- Apply a successful transition to the matching record. -/
def applyFields (r : ParseRequest) (new : RState) (f : TFields)
    (now : Nat) : ParseRequest :=
  { r with state := new,
           agent_request_id := f.agent_request_id <|> r.agent_request_id,
           result_ref := f.result_ref <|> r.result_ref,
           updated_at := now }

/-- Pointwise record update used by a successful `transition`: the record
carrying the transitioned id receives the new state and fields, every other
record is untouched. -/
def updAt (id : Nat) (new : RState) (f : TFields) (now : Nat)
    (r : ParseRequest) : ParseRequest :=
  if r.id = id then applyFields r new f now else r

/-- Modelled from the spec:
`transition(id, expected_state, new_state, fields) -> ok | StaleTransition`,
a compare-and-set: the update is rejected when the record's current state
no longer matches `expected` (spec §4.1). -/
def Store.transition (s : Store) (id : Nat) (expected new : RState)
    (f : TFields) (now : Nat) : TransitionResult × Store :=
  match s.lookup id with
  | none => (TransitionResult.notFound, s)
  | some r =>
    if r.state = expected then
      (TransitionResult.ok, { s with recs := s.recs.map (updAt id new f now) })
    else
      (TransitionResult.staleTransition, s)

/-- Modelled from the spec: `list_stale(older_than, state=dispatched)`
(spec §4.1, §4.6); `updated_at` drives timeout detection (spec §3). -/
def Store.list_stale (s : Store) (cutoff : Nat) : List ParseRequest :=
  s.recs.filter (fun r => r.state = RState.dispatched && r.updated_at ≤ cutoff)

/-- Modelled from the spec: outcome reported by the Agent Client
(spec §4.3). -/
inductive DispatchResult where
  | success (agent_request_id : String)
  | agentUnreachable
  | agentRejected
  deriving DecidableEq, Repr

/-- Modelled from the spec: the Ingress Listener's handling of the Agent
Client's outcome — on success transition to `dispatched` storing
`agent_request_id`, on failure transition to `failed` (spec §4.2). -/
def Store.resolveDispatch (s : Store) (id : Nat) (d : DispatchResult)
    (now : Nat) : Store :=
  match d with
  | DispatchResult.success a =>
      (s.transition id RState.pending RState.dispatched ⟨some a, none⟩ now).2
  | _ =>
      (s.transition id RState.pending RState.failed TFields.none_ now).2

/-- Modelled from the spec: the terminal outcome carried by an agent
callback — `completed` with `result_ref`, or `failed` (spec §4.4, §6). -/
inductive CbStatus where
  | completed (result_ref : String)
  | failed
  deriving DecidableEq, Repr

/-- Modelled from the spec: HTTP-level response of the Callback Receiver
(spec §4.4, §6). -/
inductive CbResponse where
  | ok200
  | notFound404
  deriving DecidableEq, Repr

def CbStatus.toState : CbStatus → RState
  | .completed _ => RState.completed
  | .failed => RState.failed

def CbStatus.toFields : CbStatus → TFields
  | .completed u => ⟨none, some u⟩
  | .failed => TFields.none_

/-- Modelled from the spec: the Callback Receiver's single inbound
finalization operation.  Unknown `agent_request_id` → `NotFound`, no state
change; otherwise attempt the compare-and-set `dispatched → completed|failed`,
invoking the Message Updater only on a successful transition, and respond
success even on duplicates (spec §4.4).  The boolean reports whether the
Message Updater was invoked. -/
def Store.handleCallback (s : Store) (a : String) (st : CbStatus)
    (now : Nat) : CbResponse × Store × Bool :=
  match s.lookupByAgent a with
  | none => (CbResponse.notFound404, s, false)
  | some r =>
    match s.transition r.id RState.dispatched st.toState st.toFields now with
    | (TransitionResult.ok, s') => (CbResponse.ok200, s', true)
    | (_, s') => (CbResponse.ok200, s', false)

/-- Modelled from the spec: one sweeper attempt,
`transition(id, dispatched, timed_out)`; on success the Message Updater is
invoked (spec §4.6).  The boolean reports the updater invocation. -/
def Store.sweepOne (s : Store) (id : Nat) (now : Nat) : Store × Bool :=
  match s.transition id RState.dispatched RState.timed_out TFields.none_ now with
  | (TransitionResult.ok, s') => (s', true)
  | (_, s') => (s', false)

/-- Modelled from the spec: one sweep tick — `list_stale(older_than = T,
state=dispatched)`, then for each result attempt the transition to
`timed_out` (spec §4.6).  Returns the store and the number of Message
Updater invocations. -/
def Store.sweep (s : Store) (cutoff now : Nat) : Store × Nat :=
  (s.list_stale cutoff).foldl
    (fun acc r =>
      let p := acc.1.sweepOne r.id now
      (p.1, acc.2 + (if p.2 then 1 else 0)))
    (s, 0)

/-! ### Basic lemmas about the store operations -/

lemma applyFields_id (r : ParseRequest) (n : RState) (f : TFields) (t : Nat) :
    (applyFields r n f t).id = r.id := rfl

lemma applyFields_state (r : ParseRequest) (n : RState) (f : TFields) (t : Nat) :
    (applyFields r n f t).state = n := rfl

lemma updAt_id (tid : Nat) (n : RState) (f : TFields) (t : Nat)
    (r : ParseRequest) : (updAt tid n f t r).id = r.id := by
  unfold updAt; split <;> rfl

lemma updAt_src (tid : Nat) (n : RState) (f : TFields) (t : Nat)
    (r : ParseRequest) :
    (updAt tid n f t r).source_message_ref = r.source_message_ref := by
  unfold updAt; split <;> rfl

lemma updAt_agent (tid : Nat) (n : RState) (f : TFields) (t : Nat)
    (r : ParseRequest) (hf : f.agent_request_id = none) :
    (updAt tid n f t r).agent_request_id = r.agent_request_id := by
  unfold updAt applyFields; split <;> simp [hf]

lemma updAt_of_ne (tid : Nat) (n : RState) (f : TFields) (t : Nat)
    (r : ParseRequest) (h : r.id ≠ tid) : updAt tid n f t r = r := by
  unfold updAt; simp [h]

lemma updAt_of_eq (tid : Nat) (n : RState) (f : TFields) (t : Nat)
    (r : ParseRequest) (h : r.id = tid) :
    updAt tid n f t r = applyFields r n f t := by
  unfold updAt; simp [h]

lemma lookup_some_id {s : Store} {id : Nat} {r : ParseRequest}
    (h : s.lookup id = some r) : r.id = id := by
  simpa using List.find?_some h

lemma lookup_some_mem {s : Store} {id : Nat} {r : ParseRequest}
    (h : s.lookup id = some r) : r ∈ s.recs :=
  List.mem_of_find?_eq_some h

lemma lookupByAgent_some_agent {s : Store} {a : String} {r : ParseRequest}
    (h : s.lookupByAgent a = some r) : r.agent_request_id = some a := by
  simpa using List.find?_some h

lemma lookupByAgent_some_mem {s : Store} {a : String} {r : ParseRequest}
    (h : s.lookupByAgent a = some r) : r ∈ s.recs :=
  List.mem_of_find?_eq_some h

lemma find?_id_map_updAt (l : List ParseRequest) (tid : Nat) (n : RState)
    (f : TFields) (t : Nat) (id : Nat) :
    (l.map (updAt tid n f t)).find? (fun r => r.id = id)
      = (l.find? (fun r => r.id = id)).map (updAt tid n f t) := by
  induction l with
  | nil => rfl
  | cons a l ih =>
    by_cases h : a.id = id
    · rw [List.map_cons, List.find?_cons_of_pos _ (by simpa [updAt_id] using h),
        List.find?_cons_of_pos _ (by simpa using h)]
      rfl
    · rw [List.map_cons, List.find?_cons_of_neg _ (by simpa [updAt_id] using h),
        List.find?_cons_of_neg _ (by simpa using h), ih]

lemma find?_agent_map_updAt (l : List ParseRequest) (tid : Nat) (n : RState)
    (f : TFields) (t : Nat) (a : String) (hf : f.agent_request_id = none) :
    (l.map (updAt tid n f t)).find? (fun r => r.agent_request_id = some a)
      = (l.find? (fun r => r.agent_request_id = some a)).map (updAt tid n f t) := by
  induction l with
  | nil => rfl
  | cons x l ih =>
    by_cases h : x.agent_request_id = some a
    · rw [List.map_cons,
        List.find?_cons_of_pos _ (by simpa [updAt_agent _ _ _ _ _ hf] using h),
        List.find?_cons_of_pos _ (by simpa using h)]
      rfl
    · rw [List.map_cons,
        List.find?_cons_of_neg _ (by simpa [updAt_agent _ _ _ _ _ hf] using h),
        List.find?_cons_of_neg _ (by simpa using h), ih]

lemma transition_of_none {s : Store} {id : Nat} (e n : RState) (f : TFields)
    (t : Nat) (h : s.lookup id = none) :
    s.transition id e n f t = (TransitionResult.notFound, s) := by
  simp [Store.transition, h]

lemma transition_of_stale {s : Store} {id : Nat} {r : ParseRequest}
    (e n : RState) (f : TFields) (t : Nat) (h : s.lookup id = some r)
    (hne : r.state ≠ e) :
    s.transition id e n f t = (TransitionResult.staleTransition, s) := by
  simp [Store.transition, h, hne]

lemma transition_of_ok {s : Store} {id : Nat} {r : ParseRequest}
    (e n : RState) (f : TFields) (t : Nat) (h : s.lookup id = some r)
    (he : r.state = e) :
    s.transition id e n f t
      = (TransitionResult.ok, { s with recs := s.recs.map (updAt id n f t) }) := by
  simp [Store.transition, h, he]

lemma transition_snd_of_not_ok {s : Store} {id : Nat} (e n : RState)
    (f : TFields) (t : Nat) (h : (s.transition id e n f t).1 ≠ TransitionResult.ok) :
    (s.transition id e n f t).2 = s := by
  cases hl : s.lookup id with
  | none => rw [transition_of_none e n f t hl]
  | some r =>
    by_cases he : r.state = e
    · rw [transition_of_ok e n f t hl he] at h
      exact absurd rfl h
    · rw [transition_of_stale e n f t hl he]

lemma lookup_map_updAt (s : Store) (tid : Nat) (n : RState) (f : TFields)
    (t : Nat) (id : Nat) :
    (Store.mk (s.recs.map (updAt tid n f t)) s.nextId).lookup id
      = (s.lookup id).map (updAt tid n f t) := by
  simp only [Store.lookup]
  exact find?_id_map_updAt s.recs tid n f t id

lemma lookupByAgent_map_updAt (s : Store) (tid : Nat) (n : RState)
    (f : TFields) (t : Nat) (a : String) (hf : f.agent_request_id = none) :
    (Store.mk (s.recs.map (updAt tid n f t)) s.nextId).lookupByAgent a
      = (s.lookupByAgent a).map (updAt tid n f t) := by
  simp only [Store.lookupByAgent]
  exact find?_agent_map_updAt s.recs tid n f t a hf

/-! ### C2: the compare-and-set contract of `transition` -/

/-- C2: `transition(id, expected_state, new_state, fields)` is a
compare-and-set: when the record's current state differs from
`expected_state` the call returns `StaleTransition` and leaves the store
(hence the record) entirely unchanged; when it matches, the call succeeds
and installs `new_state`; consequently, of two finalizers racing from
`dispatched` on the same record, the first one wins and the second fails
with `StaleTransition` without touching the store. -/
theorem transition_compare_and_set (s : Store) (id : Nat)
    (expected new : RState) (f : TFields) (now : Nat) (r : ParseRequest)
    (hr : s.lookup id = some r) :
    (r.state ≠ expected →
      s.transition id expected new f now = (TransitionResult.staleTransition, s))
    ∧ (r.state = expected →
      (s.transition id expected new f now).1 = TransitionResult.ok ∧
      (s.transition id expected new f now).2.lookup id
        = some (applyFields r new f now))
    ∧ (∀ t1 t2 : RState, ∀ f1 f2 : TFields, ∀ n1 n2 : Nat,
      r.state = RState.dispatched → t1 ≠ RState.dispatched →
      (s.transition id RState.dispatched t1 f1 n1).1 = TransitionResult.ok
      ∧ ((s.transition id RState.dispatched t1 f1 n1).2.transition id
          RState.dispatched t2 f2 n2).1 = TransitionResult.staleTransition
      ∧ ((s.transition id RState.dispatched t1 f1 n1).2.transition id
          RState.dispatched t2 f2 n2).2
        = (s.transition id RState.dispatched t1 f1 n1).2) := by
  refine ⟨fun hne => transition_of_stale expected new f now hr hne, fun he => ?_, ?_⟩
  · rw [transition_of_ok expected new f now hr he]
    refine ⟨rfl, ?_⟩
    rw [lookup_map_updAt, hr]
    simp [updAt_of_eq _ _ _ _ _ (lookup_some_id hr)]
  · intro t1 t2 f1 f2 n1 n2 hd ht1
    rw [transition_of_ok RState.dispatched t1 f1 n1 hr hd]
    have h1 : (Store.mk (s.recs.map (updAt id t1 f1 n1)) s.nextId).lookup id
        = some (applyFields r t1 f1 n1) := by
      rw [lookup_map_updAt, hr]
      simp [updAt_of_eq _ _ _ _ _ (lookup_some_id hr)]
    have h2 := transition_of_stale (s := Store.mk (s.recs.map (updAt id t1 f1 n1)) s.nextId)
      RState.dispatched t2 f2 n2 h1 (by simpa [applyFields_state] using ht1)
    exact ⟨rfl, by rw [h2], by rw [h2]⟩

/-- A concrete dispatched request, used to instantiate theorems. -/
def demoRec : ParseRequest :=
  ⟨0, "m1", some "s1", some "a1", RState.dispatched, none, 0, 0⟩

/-- A concrete one-record store holding `demoRec`, used to instantiate
theorems. -/
def demoStore : Store := ⟨[demoRec], 1⟩

/-- Witness for C2 at a concrete one-record store: a callback completing
the request wins, a sweeper's subsequent compare-and-set is stale, and a
compare-and-set with the wrong expected state leaves the store unchanged. -/
theorem transition_compare_and_set_witness :
    (demoStore.transition 0 RState.pending RState.failed TFields.none_ 7
        = (TransitionResult.staleTransition, demoStore))
    ∧ (demoStore.transition 0 RState.dispatched RState.completed
        ⟨none, some "u"⟩ 5).1 = TransitionResult.ok
    ∧ ((demoStore.transition 0 RState.dispatched RState.completed
        ⟨none, some "u"⟩ 5).2.transition 0 RState.dispatched RState.timed_out
        TFields.none_ 9).1 = TransitionResult.staleTransition := by
  have h := transition_compare_and_set demoStore 0 RState.dispatched
    RState.completed ⟨none, some "u"⟩ 5 demoRec rfl
  have hp := transition_compare_and_set demoStore 0 RState.pending
    RState.failed TFields.none_ 7 demoRec rfl
  have h3 := h.2.2 RState.completed RState.timed_out ⟨none, some "u"⟩
    TFields.none_ 5 9 rfl (by decide)
  exact ⟨hp.1 (by decide), h3.1, h3.2.1⟩

/-! ### Well-formedness and the system step relation -/

/-- Well-formedness of a store: every primary key is below the fresh-id
counter, and primary keys are pairwise distinct. -/
def WF (s : Store) : Prop :=
  (∀ r ∈ s.recs, r.id < s.nextId) ∧ s.recs.Pairwise (fun a b => a.id ≠ b.id)

lemma WF_empty : WF Store.empty := ⟨by simp [Store.empty], by simp [Store.empty]⟩

lemma mem_id_unique {s : Store} {tid : Nat} {rf r : ParseRequest}
    (hwf : WF s) (h : s.lookup tid = some rf) (hr : r ∈ s.recs)
    (hid : r.id = tid) : r = rf := by
  by_contra hne
  have hfm := lookup_some_mem h
  have hfid := lookup_some_id h
  have := hwf.2.forall (fun {x y} hxy => Ne.symm hxy) hr hfm hne
  exact this (hid.trans hfid.symm)

/-- Modelled from the spec: the operations through which the components
mutate the Correlation Store — creation by the Ingress Listener, dispatch
resolution, callback finalization, and one sweeper attempt (spec §3
lifecycle, §5). -/
inductive Step : Store → Store → Prop where
  | create (s : Store) (src : String) (ref : Option String) (now : Nat) :
      Step s (s.create src ref now).2
  | dispatch (s : Store) (id : Nat) (d : DispatchResult) (now : Nat) :
      Step s (s.resolveDispatch id d now)
  | callback (s : Store) (a : String) (st : CbStatus) (now : Nat) :
      Step s (s.handleCallback a st now).2.1
  | sweepOne (s : Store) (id : Nat) (now : Nat) :
      Step s (s.sweepOne id now).1

/-- A store reachable from the empty store through the components'
operations. -/
def Reachable (s : Store) : Prop :=
  Relation.ReflTransGen Step Store.empty s

lemma create_of_dup {s : Store} {src : String} (ref : Option String)
    (now : Nat)
    (h : s.recs.any (fun r => r.source_message_ref = src && isActive r) = true) :
    s.create src ref now = (CreateResult.duplicateActiveRequest, s) := by
  simp [Store.create, h]

lemma create_of_fresh {s : Store} {src : String} (ref : Option String)
    (now : Nat)
    (h : s.recs.any (fun r => r.source_message_ref = src && isActive r) = false) :
    s.create src ref now = (CreateResult.created s.nextId,
      { recs := { id := s.nextId, source_message_ref := src,
                  status_message_ref := ref, agent_request_id := none,
                  state := RState.pending, result_ref := none,
                  created_at := now, updated_at := now } :: s.recs,
        nextId := s.nextId + 1 }) := by
  simp [Store.create, h]

lemma handleCallback_snd_of_none {s : Store} {a : String} (st : CbStatus)
    (now : Nat) (h : s.lookupByAgent a = none) :
    s.handleCallback a st now = (CbResponse.notFound404, s, false) := by
  simp [Store.handleCallback, h]

lemma handleCallback_of_some {s : Store} {a : String} {r : ParseRequest}
    (st : CbStatus) (now : Nat) (h : s.lookupByAgent a = some r) :
    s.handleCallback a st now
      = (CbResponse.ok200,
         (s.transition r.id RState.dispatched st.toState st.toFields now).2,
         decide ((s.transition r.id RState.dispatched st.toState st.toFields now).1
           = TransitionResult.ok)) := by
  simp only [Store.handleCallback, h]
  cases htr : s.transition r.id RState.dispatched st.toState st.toFields now with
  | mk res s' => cases res <;> rfl

lemma sweepOne_fst (s : Store) (id now : Nat) :
    (s.sweepOne id now).1
      = (s.transition id RState.dispatched RState.timed_out TFields.none_ now).2 := by
  simp only [Store.sweepOne]
  cases htr : s.transition id RState.dispatched RState.timed_out TFields.none_ now with
  | mk res s' => cases res <;> rfl

lemma WF_map_updAt {s : Store} (tid : Nat) (n : RState) (f : TFields)
    (t : Nat) (hwf : WF s) :
    WF (Store.mk (s.recs.map (updAt tid n f t)) s.nextId) := by
  constructor
  · intro r hr
    rcases List.mem_map.mp hr with ⟨x, hx, rfl⟩
    rw [updAt_id]
    exact hwf.1 x hx
  · rw [List.pairwise_map]
    exact hwf.2.imp (fun {a b} hab => by
      rw [updAt_id, updAt_id]; exact hab)

lemma WF_transition {s : Store} (tid : Nat) (e n : RState) (f : TFields)
    (t : Nat) (hwf : WF s) : WF (s.transition tid e n f t).2 := by
  cases hl : s.lookup tid with
  | none => rw [transition_of_none e n f t hl]; exact hwf
  | some r =>
    by_cases he : r.state = e
    · rw [transition_of_ok e n f t hl he]
      exact WF_map_updAt tid n f t hwf
    · rw [transition_of_stale e n f t hl he]; exact hwf

lemma WF_create {s : Store} (src : String) (ref : Option String) (now : Nat)
    (hwf : WF s) : WF (s.create src ref now).2 := by
  cases ha : s.recs.any (fun r => r.source_message_ref = src && isActive r) with
  | false =>
    rw [create_of_fresh ref now ha]
    constructor
    · intro r hr
      rcases List.mem_cons.mp hr with rfl | hr
      · exact Nat.lt_succ_self _
      · exact Nat.lt_succ_of_lt (hwf.1 r hr)
    · refine List.pairwise_cons.mpr ⟨?_, hwf.2⟩
      intro b hb
      exact Nat.ne_of_gt (hwf.1 b hb)
  | true => rw [create_of_dup ref now ha]; exact hwf

lemma WF_step {s s' : Store} (hwf : WF s) (hstep : Step s s') : WF s' := by
  cases hstep with
  | create src ref now => exact WF_create src ref now hwf
  | dispatch id d now =>
    cases d <;> simp only [Store.resolveDispatch] <;>
      exact WF_transition _ _ _ _ _ hwf
  | callback a st now =>
    cases hl : s.lookupByAgent a with
    | none => rw [handleCallback_snd_of_none st now hl]; exact hwf
    | some r =>
      rw [handleCallback_of_some st now hl]
      exact WF_transition _ _ _ _ _ hwf
  | sweepOne id now =>
    rw [sweepOne_fst]
    exact WF_transition _ _ _ _ _ hwf

lemma WF_reachable {s : Store} (h : Reachable s) : WF s := by
  induction h with
  | refl => exact WF_empty
  | tail _ hstep ih => exact WF_step ih hstep

/-! ### C3: monotonic state transitions -/

/-- The edges of the state machine of spec §4.1. -/
def allowedEdge : RState → RState → Bool
  | RState.pending, RState.dispatched => true
  | RState.pending, RState.failed => true
  | RState.dispatched, RState.completed => true
  | RState.dispatched, RState.failed => true
  | RState.dispatched, RState.timed_out => true
  | _, _ => false

lemma allowedEdge_not_terminal {a b : RState} (h : allowedEdge a b = true) :
    a.isTerminal = false := by
  revert h; cases a <;> cases b <;> decide

lemma lookup_after_transition {s : Store} {tid : Nat} {e n : RState}
    {f : TFields} {t : Nat} {id : Nat} {r r' : ParseRequest}
    (h : s.lookup id = some r)
    (h' : (s.transition tid e n f t).2.lookup id = some r') :
    r' = r ∨ (r.state = e ∧ r' = applyFields r n f t) := by
  cases hl : s.lookup tid with
  | none =>
    rw [transition_of_none e n f t hl, h] at h'
    exact Or.inl (Option.some_injective _ h').symm
  | some rf =>
    by_cases he : rf.state = e
    · rw [transition_of_ok e n f t hl he, lookup_map_updAt, h] at h'
      simp only [Option.map_some'] at h'
      by_cases hid : r.id = tid
      · have hiteq : id = tid := (lookup_some_id h).symm.trans hid
        have : rf = r := by
          rw [hiteq] at h
          exact Option.some_injective _ (hl.symm.trans h)
        subst this
        rw [updAt_of_eq _ _ _ _ _ hid] at h'
        exact Or.inr ⟨he, (Option.some_injective _ h').symm⟩
      · rw [updAt_of_ne _ _ _ _ _ hid] at h'
        exact Or.inl (Option.some_injective _ h').symm
    · rw [transition_of_stale e n f t hl he, h] at h'
      exact Or.inl (Option.some_injective _ h').symm

lemma lookup_create_of_lt {s : Store} {src : String} {ref : Option String}
    {now : Nat} {id : Nat} (hlt : id < s.nextId) :
    (s.create src ref now).2.lookup id = s.lookup id := by
  cases ha : s.recs.any (fun r => r.source_message_ref = src && isActive r) with
  | false =>
    rw [create_of_fresh ref now ha]
    simp only [Store.lookup]
    rw [List.find?_cons_of_neg]
    simp only [decide_eq_true_eq]
    exact Nat.ne_of_gt hlt
  | true => rw [create_of_dup ref now ha]

/-- C3: every operation of the system moves a record's `state` only along
the transitions pending→dispatched, pending→failed, dispatched→completed,
dispatched→failed and dispatched→timed_out; in particular no operation
changes the state of a record that is already terminal. -/
theorem state_monotonic (s s' : Store) (hwf : WF s) (hstep : Step s s')
    (id : Nat) (r r' : ParseRequest) (h : s.lookup id = some r)
    (h' : s'.lookup id = some r') :
    (r'.state = r.state ∨ allowedEdge r.state r'.state = true)
    ∧ (r.state.isTerminal = true → r'.state = r.state) := by
  have hmain : r'.state = r.state ∨ allowedEdge r.state r'.state = true := by
    cases hstep with
    | create src ref now =>
      have hlt : id < s.nextId := (lookup_some_id h) ▸ hwf.1 r (lookup_some_mem h)
      rw [lookup_create_of_lt hlt, h] at h'
      exact Or.inl (congrArg ParseRequest.state (Option.some_injective _ h'.symm))
    | dispatch tid d now =>
      cases d with
      | success a =>
        simp only [Store.resolveDispatch] at h'
        rcases lookup_after_transition h h' with heq | ⟨he, heq⟩
        · exact Or.inl (congrArg ParseRequest.state heq)
        · refine Or.inr ?_
          rw [heq, applyFields_state, he]
          decide
      | agentUnreachable =>
        simp only [Store.resolveDispatch] at h'
        rcases lookup_after_transition h h' with heq | ⟨he, heq⟩
        · exact Or.inl (congrArg ParseRequest.state heq)
        · refine Or.inr ?_
          rw [heq, applyFields_state, he]
          decide
      | agentRejected =>
        simp only [Store.resolveDispatch] at h'
        rcases lookup_after_transition h h' with heq | ⟨he, heq⟩
        · exact Or.inl (congrArg ParseRequest.state heq)
        · refine Or.inr ?_
          rw [heq, applyFields_state, he]
          decide
    | callback a st now =>
      cases hl : s.lookupByAgent a with
      | none =>
        rw [handleCallback_snd_of_none st now hl, h] at h'
        exact Or.inl (congrArg ParseRequest.state (Option.some_injective _ h'.symm))
      | some rc =>
        rw [handleCallback_of_some st now hl] at h'
        simp only at h'
        rcases lookup_after_transition h h' with heq | ⟨he, heq⟩
        · exact Or.inl (congrArg ParseRequest.state heq)
        · refine Or.inr ?_
          rw [heq, applyFields_state, he]
          cases st <;> simp [CbStatus.toState, allowedEdge]
    | sweepOne tid now =>
      rw [sweepOne_fst] at h'
      rcases lookup_after_transition h h' with heq | ⟨he, heq⟩
      · exact Or.inl (congrArg ParseRequest.state heq)
      · refine Or.inr ?_
        rw [heq, applyFields_state, he]
        decide
  refine ⟨hmain, fun hterm => ?_⟩
  rcases hmain with heq | hedge
  · exact heq
  · rw [allowedEdge_not_terminal hedge] at hterm
    cases hterm

lemma WF_demoStore : WF demoStore := by
  constructor
  · intro r hr
    rcases List.mem_singleton.mp hr with rfl
    decide
  · simp [demoStore]

/-- Witness for C3: sweeping the concrete dispatched request moves it along
the allowed edge dispatched→timed_out, and a request already `timed_out`
is left untouched by a late callback step. -/
theorem state_monotonic_witness :
    ((applyFields demoRec RState.timed_out TFields.none_ 9).state = demoRec.state
      ∨ allowedEdge demoRec.state
          (applyFields demoRec RState.timed_out TFields.none_ 9).state = true)
    ∧ (demoRec.state.isTerminal = true →
        (applyFields demoRec RState.timed_out TFields.none_ 9).state
          = demoRec.state) := by
  exact state_monotonic demoStore (demoStore.sweepOne 0 9).1 WF_demoStore
    (Step.sweepOne demoStore 0 9) 0 demoRec
    (applyFields demoRec RState.timed_out TFields.none_ 9) rfl (by decide)

/-! ### C6: callback with unknown agent id -/

/-- C6: a callback whose `agent_request_id` matches no stored request is
answered `NotFound` and leaves the Correlation Store completely unchanged;
a callback whose identifier matches a stored request is answered `200`,
duplicates included. -/
theorem callback_unknown_untouched (s : Store) (a : String) (st : CbStatus)
    (now : Nat) :
    (s.lookupByAgent a = none →
      s.handleCallback a st now = (CbResponse.notFound404, s, false))
    ∧ (∀ r : ParseRequest, s.lookupByAgent a = some r →
      (s.handleCallback a st now).1 = CbResponse.ok200) := by
  constructor
  · intro h
    exact handleCallback_snd_of_none st now h
  · intro r h
    rw [handleCallback_of_some st now h]

/-- Witness for C6: on the concrete store, the unknown identifier "zz" is
rejected with `NotFound` and no store change, while the stored identifier
"a1" is answered `200`. -/
theorem callback_unknown_untouched_witness :
    (demoStore.handleCallback "zz" CbStatus.failed 3
      = (CbResponse.notFound404, demoStore, false))
    ∧ (demoStore.handleCallback "a1" (CbStatus.completed "u") 3).1
      = CbResponse.ok200 := by
  exact ⟨(callback_unknown_untouched demoStore "zz" CbStatus.failed 3).1 (by decide),
    (callback_unknown_untouched demoStore "a1" (CbStatus.completed "u") 3).2
      demoRec (by decide)⟩

/-! ### C5 and C7: idempotent callbacks, sweeper versus late callback -/

lemma lookup_of_mem {s : Store} {r : ParseRequest} (hwf : WF s)
    (hr : r ∈ s.recs) : s.lookup r.id = some r := by
  cases hl : s.lookup r.id with
  | none =>
    have := (List.find?_eq_none.mp hl) r hr
    simp at this
  | some rf =>
    rw [mem_id_unique hwf hl hr rfl]

lemma toFields_agent_none (st : CbStatus) : st.toFields.agent_request_id = none := by
  cases st <;> rfl

lemma toState_ne_dispatched (st : CbStatus) : st.toState ≠ RState.dispatched := by
  cases st <;> simp [CbStatus.toState]

/-- C5: the Callback Receiver is idempotent.  A first callback for a
dispatched request responds `200` and invokes the Message Updater; the
identical callback delivered a second time, when the request is already
terminal, responds `200`, changes no state, and does not invoke the
updater — so the updater runs exactly once across both deliveries. -/
theorem callback_idempotent (s : Store) (a : String) (st : CbStatus)
    (n1 n2 : Nat) (r : ParseRequest) (hwf : WF s)
    (h : s.lookupByAgent a = some r) (hd : r.state = RState.dispatched) :
    (s.handleCallback a st n1).1 = CbResponse.ok200
    ∧ (s.handleCallback a st n1).2.2 = true
    ∧ ((s.handleCallback a st n1).2.1.handleCallback a st n2).1 = CbResponse.ok200
    ∧ ((s.handleCallback a st n1).2.1.handleCallback a st n2).2.1
        = (s.handleCallback a st n1).2.1
    ∧ ((s.handleCallback a st n1).2.1.handleCallback a st n2).2.2 = false := by
  have hlook : s.lookup r.id = some r := lookup_of_mem hwf (lookupByAgent_some_mem h)
  have hok := transition_of_ok RState.dispatched st.toState st.toFields n1 hlook hd
  have hcb1 := handleCallback_of_some st n1 h
  rw [hok] at hcb1
  set ms : Store := ⟨s.recs.map (updAt r.id st.toState st.toFields n1), s.nextId⟩
    with hms
  have hwf1 : WF ms := WF_map_updAt r.id st.toState st.toFields n1 hwf
  have hr1 : ms.lookupByAgent a
      = some (applyFields r st.toState st.toFields n1) := by
    rw [hms, lookupByAgent_map_updAt s r.id st.toState st.toFields n1 a
      (toFields_agent_none st), h, Option.map_some',
      updAt_of_eq _ _ _ _ _ rfl]
  have hst1 : (applyFields r st.toState st.toFields n1).state ≠ RState.dispatched := by
    rw [applyFields_state]
    exact toState_ne_dispatched st
  have hstale := transition_of_stale (s := ms) RState.dispatched st.toState
    st.toFields n2 (lookup_of_mem hwf1 (lookupByAgent_some_mem hr1)) hst1
  have hid1 : (applyFields r st.toState st.toFields n1).id = r.id := rfl
  rw [hid1] at hstale
  have hcb2 := handleCallback_of_some (s := ms) st n2 hr1
  rw [hid1, hstale] at hcb2
  rw [hcb1]
  simp only
  rw [hcb2]
  simp

/-- Witness for C5 on the concrete one-record store: the first completed
callback for "a1" invokes the updater, the duplicate responds `200`
without store change or a second invocation. -/
theorem callback_idempotent_witness :
    (demoStore.handleCallback "a1" (CbStatus.completed "u") 4).1 = CbResponse.ok200
    ∧ (demoStore.handleCallback "a1" (CbStatus.completed "u") 4).2.2 = true
    ∧ ((demoStore.handleCallback "a1" (CbStatus.completed "u") 4).2.1.handleCallback
        "a1" (CbStatus.completed "u") 8).1 = CbResponse.ok200
    ∧ ((demoStore.handleCallback "a1" (CbStatus.completed "u") 4).2.1.handleCallback
        "a1" (CbStatus.completed "u") 8).2.1
        = (demoStore.handleCallback "a1" (CbStatus.completed "u") 4).2.1
    ∧ ((demoStore.handleCallback "a1" (CbStatus.completed "u") 4).2.1.handleCallback
        "a1" (CbStatus.completed "u") 8).2.2 = false :=
  callback_idempotent demoStore "a1" (CbStatus.completed "u") 4 8 demoRec
    WF_demoStore (by decide) rfl

/-- C7: once the Timeout Sweeper has transitioned a dispatched request to
`timed_out`, a later callback for that request's `agent_request_id` leaves
the store (hence the request's state) unchanged and does not invoke the
Message Updater: the compare-and-set from `dispatched` fails. -/
theorem timeout_wins_over_late_callback (s : Store) (a : String)
    (st : CbStatus) (n1 n2 : Nat) (r : ParseRequest) (hwf : WF s)
    (h : s.lookupByAgent a = some r) (hd : r.state = RState.dispatched) :
    (s.sweepOne r.id n1).2 = true
    ∧ ((s.sweepOne r.id n1).1.handleCallback a st n2).2.1 = (s.sweepOne r.id n1).1
    ∧ ((s.sweepOne r.id n1).1.handleCallback a st n2).2.2 = false
    ∧ (∃ r1 : ParseRequest,
        ((s.sweepOne r.id n1).1.handleCallback a st n2).2.1.lookup r.id = some r1
        ∧ r1.state = RState.timed_out) := by
  have hlook : s.lookup r.id = some r := lookup_of_mem hwf (lookupByAgent_some_mem h)
  have hok := transition_of_ok RState.dispatched RState.timed_out TFields.none_ n1
    hlook hd
  have hsw : s.sweepOne r.id n1
      = (⟨s.recs.map (updAt r.id RState.timed_out TFields.none_ n1), s.nextId⟩, true) := by
    simp only [Store.sweepOne, hok]
  set ms : Store := ⟨s.recs.map (updAt r.id RState.timed_out TFields.none_ n1), s.nextId⟩
    with hms
  have hwf1 : WF ms := WF_map_updAt r.id RState.timed_out TFields.none_ n1 hwf
  have hr1 : ms.lookupByAgent a
      = some (applyFields r RState.timed_out TFields.none_ n1) := by
    rw [hms, lookupByAgent_map_updAt s r.id RState.timed_out TFields.none_ n1 a rfl,
      h, Option.map_some', updAt_of_eq _ _ _ _ _ rfl]
  have hst1 : (applyFields r RState.timed_out TFields.none_ n1).state
      ≠ RState.dispatched := by
    rw [applyFields_state]
    simp
  have hlook1 : ms.lookup r.id
      = some (applyFields r RState.timed_out TFields.none_ n1) :=
    lookup_of_mem hwf1 (lookupByAgent_some_mem hr1)
  have hstale := transition_of_stale (s := ms) RState.dispatched st.toState
    st.toFields n2 hlook1 hst1
  have hcb := handleCallback_of_some (s := ms) st n2 hr1
  have hid1 : (applyFields r RState.timed_out TFields.none_ n1).id = r.id := rfl
  rw [hid1, hstale] at hcb
  rw [hsw]
  simp only
  rw [hcb]
  refine ⟨trivial, ?_, ?_, ?_⟩
  · simp
  · simp
  · exact ⟨applyFields r RState.timed_out TFields.none_ n1, hlook1,
      applyFields_state _ _ _ _⟩

/-- Witness for C7 on the concrete one-record store: the sweep at time 9
finalizes the request as `timed_out`, and the late completed callback for
"a1" changes nothing and triggers no updater invocation. -/
theorem timeout_wins_over_late_callback_witness :
    (demoStore.sweepOne 0 9).2 = true
    ∧ ((demoStore.sweepOne 0 9).1.handleCallback "a1" (CbStatus.completed "u") 11).2.1
        = (demoStore.sweepOne 0 9).1
    ∧ ((demoStore.sweepOne 0 9).1.handleCallback "a1" (CbStatus.completed "u") 11).2.2
        = false
    ∧ (∃ r1 : ParseRequest,
        ((demoStore.sweepOne 0 9).1.handleCallback "a1"
          (CbStatus.completed "u") 11).2.1.lookup 0 = some r1
        ∧ r1.state = RState.timed_out) :=
  timeout_wins_over_late_callback demoStore "a1" (CbStatus.completed "u") 9 11
    demoRec WF_demoStore (by decide) rfl

/-! ### C4: at most one active request per source message -/

/-- Number of active (`pending`/`dispatched`) requests stored for a given
`source_message_ref`. -/
def activeCount (s : Store) (src : String) : Nat :=
  s.recs.countP (fun r => r.source_message_ref = src && isActive r)

lemma activeCount_transition_le {s : Store} (tid : Nat) (e n : RState)
    (f : TFields) (t : Nat) (src : String) (hwf : WF s)
    (he : e = RState.pending ∨ e = RState.dispatched) :
    activeCount (s.transition tid e n f t).2 src ≤ activeCount s src := by
  cases hl : s.lookup tid with
  | none => rw [transition_of_none e n f t hl]
  | some rf =>
    by_cases hst : rf.state = e
    · rw [transition_of_ok e n f t hl hst]
      simp only [activeCount, List.countP_map]
      refine List.countP_mono_left ?_
      intro x hx hpx
      by_cases hid : x.id = tid
      · have hxr : x = rf := mem_id_unique hwf hl hx hid
        subst hxr
        simp only [Function.comp, updAt_of_eq _ _ _ _ _ hid] at hpx
        simp only [Bool.and_eq_true, decide_eq_true_eq] at hpx ⊢
        refine ⟨hpx.1, ?_⟩
        rcases he with he | he <;> simp [isActive, hst, he]
      · simp only [Function.comp, updAt_of_ne _ _ _ _ _ hid] at hpx
        exact hpx
    · rw [transition_of_stale e n f t hl hst]

lemma activeUnique_step {s s' : Store} (hwf : WF s)
    (hau : ∀ src, activeCount s src ≤ 1) (hstep : Step s s') :
    ∀ src, activeCount s' src ≤ 1 := by
  intro src
  cases hstep with
  | create csrc ref now =>
    cases ha : s.recs.any (fun r => r.source_message_ref = csrc && isActive r) with
    | true => rw [create_of_dup ref now ha]; exact hau src
    | false =>
      rw [create_of_fresh ref now ha]
      simp only [activeCount, List.countP_cons]
      by_cases hsrc : csrc = src
      · subst hsrc
        have hzero : s.recs.countP
            (fun r => r.source_message_ref = csrc && isActive r) = 0 := by
          rw [List.countP_eq_zero]
          intro x hx hpx
          exact (List.any_eq_false.mp ha x hx) hpx
        rw [hzero]
        split <;> simp
      · have := hau src
        simp only [activeCount] at this
        simpa [hsrc] using this
  | dispatch id d now =>
    cases d <;> simp only [Store.resolveDispatch] <;>
      exact le_trans (activeCount_transition_le _ _ _ _ _ _ hwf (Or.inl rfl)) (hau src)
  | callback a st now =>
    cases hl : s.lookupByAgent a with
    | none => rw [handleCallback_snd_of_none st now hl]; exact hau src
    | some r =>
      rw [handleCallback_of_some st now hl]
      exact le_trans (activeCount_transition_le _ _ _ _ _ _ hwf (Or.inr rfl)) (hau src)
  | sweepOne id now =>
    rw [sweepOne_fst]
    exact le_trans (activeCount_transition_le _ _ _ _ _ _ hwf (Or.inr rfl)) (hau src)

lemma WF_and_activeUnique_reachable {s : Store} (h : Reachable s) :
    WF s ∧ ∀ src, activeCount s src ≤ 1 := by
  induction h with
  | refl => exact ⟨WF_empty, fun src => by simp [activeCount, Store.empty]⟩
  | tail _ hstep ih =>
    exact ⟨WF_step ih.1 hstep, activeUnique_step ih.1 ih.2 hstep⟩

/-- C4: in every reachable store at most one `ParseRequest` per
`source_message_ref` is active (`pending`/`dispatched`); re-submitting a
source message that already has an active request makes `create` fail with
`DuplicateActiveRequest`, creates no record (the store is returned
unchanged), and leaves exactly one active stored request for that source
message. -/
theorem duplicate_active_request (s : Store) (hs : Reachable s)
    (src : String) :
    activeCount s src ≤ 1
    ∧ (∀ (ref : Option String) (now : Nat) (r : ParseRequest),
        r ∈ s.recs → r.source_message_ref = src → isActive r = true →
        s.create src ref now = (CreateResult.duplicateActiveRequest, s)
        ∧ activeCount s src = 1) := by
  have hau := (WF_and_activeUnique_reachable hs).2
  refine ⟨hau src, ?_⟩
  intro ref now r hr hsrc hact
  have hany : s.recs.any (fun x => x.source_message_ref = src && isActive x) = true :=
    List.any_eq_true.mpr ⟨r, hr, by simp [hsrc, hact]⟩
  refine ⟨create_of_dup ref now hany, ?_⟩
  have hpos : 0 < activeCount s src :=
    List.countP_pos_iff.mpr ⟨r, hr, by simp [hsrc, hact]⟩
  have := hau src
  omega

/-- The store after accepting one message "m1", used as a concrete
reachable state. -/
def c4Store : Store := (Store.empty.create "m1" (some "s1") 0).2

/-- Witness for C4: after accepting "m1", re-submitting "m1" is rejected
with `DuplicateActiveRequest`, the store is unchanged, and exactly one
active request for "m1" is stored. -/
theorem duplicate_active_request_witness :
    activeCount c4Store "m1" ≤ 1
    ∧ c4Store.create "m1" none 3 = (CreateResult.duplicateActiveRequest, c4Store)
    ∧ activeCount c4Store "m1" = 1 := by
  have h := duplicate_active_request c4Store
    (Relation.ReflTransGen.tail Relation.ReflTransGen.refl
      (Step.create Store.empty "m1" (some "s1") 0)) "m1"
  have h2 := h.2 none 3
    ⟨0, "m1", some "s1", none, RState.pending, none, 0, 0⟩
    (by decide) rfl rfl
  exact ⟨h.1, h2.1, h2.2⟩

/-! ### C8: result_ref is set exactly on completed requests -/

/-- The §3 invariant: `result_ref` is set iff `state = completed`. -/
def resultInv (s : Store) : Prop :=
  ∀ r ∈ s.recs, (r.result_ref.isSome = true ↔ r.state = RState.completed)

lemma resultInv_transition {s : Store} (tid : Nat) (e n : RState)
    (f : TFields) (t : Nat) (hwf : WF s) (hinv : resultInv s)
    (hc1 : n = RState.completed → f.result_ref.isSome = true)
    (hc2 : n ≠ RState.completed → f.result_ref = none)
    (hc3 : e ≠ RState.completed) :
    resultInv (s.transition tid e n f t).2 := by
  cases hl : s.lookup tid with
  | none => rw [transition_of_none e n f t hl]; exact hinv
  | some rf =>
    by_cases hst : rf.state = e
    · rw [transition_of_ok e n f t hl hst]
      intro r' hr'
      rcases List.mem_map.mp hr' with ⟨x, hx, rfl⟩
      by_cases hid : x.id = tid
      · have hxr : x = rf := mem_id_unique hwf hl hx hid
        subst hxr
        rw [updAt_of_eq _ _ _ _ _ hid]
        have hnone : x.result_ref = none := by
          rcases hres : x.result_ref with _ | v
          · rfl
          · exfalso
            exact hc3 (hst ▸ (hinv x hx).mp (by rw [hres]; rfl))
        by_cases hn : n = RState.completed
        · subst hn
          have hfr : f.result_ref.isSome = true := hc1 rfl
          rcases hfs : f.result_ref with _ | v
          · rw [hfs] at hfr; cases hfr
          · simp [applyFields, hnone, hfs]
        · simp [applyFields, hnone, hc2 hn, hn]
      · rw [updAt_of_ne _ _ _ _ _ hid]
        exact hinv x hx
    · rw [transition_of_stale e n f t hl hst]; exact hinv

lemma resultInv_step {s s' : Store} (hwf : WF s) (hinv : resultInv s)
    (hstep : Step s s') : resultInv s' := by
  cases hstep with
  | create src ref now =>
    cases ha : s.recs.any (fun r => r.source_message_ref = src && isActive r) with
    | true => rw [create_of_dup ref now ha]; exact hinv
    | false =>
      rw [create_of_fresh ref now ha]
      intro r hr
      rcases List.mem_cons.mp hr with rfl | hr
      · simp
      · exact hinv r hr
  | dispatch id d now =>
    cases d <;> simp only [Store.resolveDispatch] <;>
      exact resultInv_transition _ _ _ _ _ hwf hinv
        (by intro hcontra; cases hcontra) (fun _ => rfl) (by intro hcontra; cases hcontra)
  | callback a st now =>
    cases hl : s.lookupByAgent a with
    | none => rw [handleCallback_snd_of_none st now hl]; exact hinv
    | some r =>
      rw [handleCallback_of_some st now hl]
      cases st with
      | completed u =>
        exact resultInv_transition _ _ _ _ _ hwf hinv
          (fun _ => rfl) (fun hne => absurd rfl hne) (by intro hcontra; cases hcontra)
      | failed =>
        exact resultInv_transition _ _ _ _ _ hwf hinv
          (by intro hcontra; cases hcontra) (fun _ => rfl) (by intro hcontra; cases hcontra)
  | sweepOne id now =>
    rw [sweepOne_fst]
    exact resultInv_transition _ _ _ _ _ hwf hinv
      (by intro hcontra; cases hcontra) (fun _ => rfl) (by intro hcontra; cases hcontra)

/-- C8: in every reachable store, a request's `result_ref` is set if and
only if that request's `state` is `completed`. -/
theorem result_ref_iff_completed (s : Store) (hs : Reachable s) :
    ∀ r ∈ s.recs, (r.result_ref.isSome = true ↔ r.state = RState.completed) := by
  have : WF s ∧ resultInv s := by
    induction hs with
    | refl => exact ⟨WF_empty, by intro r hr; cases hr⟩
    | tail _ hstep ih =>
      exact ⟨WF_step ih.1 hstep, resultInv_step ih.1 ih.2 hstep⟩
  exact this.2

/-- The store after accepting "m1", dispatching it as "a1", and receiving
a completed callback with result "u": a concrete reachable state with a
completed request. -/
def c8Store : Store :=
  (((Store.empty.create "m1" none 0).2.resolveDispatch 0
    (DispatchResult.success "a1") 1).handleCallback "a1"
    (CbStatus.completed "u") 2).2.1

/-- Witness for C8: in the concrete reachable store, the completed request
carries `result_ref = some "u"`, and the iff holds for it. -/
theorem result_ref_iff_completed_witness :
    ((⟨0, "m1", none, some "a1", RState.completed, some "u", 0, 2⟩ :
        ParseRequest).result_ref.isSome = true
      ↔ (⟨0, "m1", none, some "a1", RState.completed, some "u", 0, 2⟩ :
        ParseRequest).state = RState.completed) :=
  result_ref_iff_completed c8Store
    (Relation.ReflTransGen.tail (Relation.ReflTransGen.tail
      (Relation.ReflTransGen.tail Relation.ReflTransGen.refl
        (Step.create Store.empty "m1" none 0))
      (Step.dispatch _ 0 (DispatchResult.success "a1") 1))
      (Step.callback _ "a1" (CbStatus.completed "u") 2))
    ⟨0, "m1", none, some "a1", RState.completed, some "u", 0, 2⟩ (by decide)

/-! ### C1: exactly one terminal outcome per accepted request -/

/-- Modelled from the spec: the external stimuli driving the relay — an
inbound link message together with its dispatch outcome (the Ingress
Listener treats dispatch as synchronous, spec §4.1/§4.2), an agent
callback, and a sweeper tick (spec §5). -/
inductive Ev where
  | message (src : String) (ref : Option String) (d : DispatchResult) (now : Nat)
  | callback (a : String) (st : CbStatus) (now : Nat)
  | sweepTick (cutoff now : Nat)
  deriving DecidableEq, Repr

/-- Modelled from the spec: applying one stimulus to the store (spec §2
control flow). -/
def applyEv (s : Store) : Ev → Store
  | Ev.message src ref d now =>
    match s.create src ref now with
    | (CreateResult.created id, s1) => s1.resolveDispatch id d now
    | (CreateResult.duplicateActiveRequest, s1) => s1
  | Ev.callback a st now => (s.handleCallback a st now).2.1
  | Ev.sweepTick cutoff now => (s.sweep cutoff now).1

/-- A full system run from the empty store. -/
def run (evs : List Ev) : Store := evs.foldl applyEv Store.empty

lemma run_append (evs more : List Ev) :
    run (evs ++ more) = more.foldl applyEv (run evs) := by
  simp [run, List.foldl_append]

lemma sweep_foldl_steps (now : Nat) (L : List ParseRequest) :
    ∀ acc : Store × Nat,
      Relation.ReflTransGen Step acc.1
        ((L.foldl (fun acc r =>
          let p := acc.1.sweepOne r.id now
          (p.1, acc.2 + (if p.2 then 1 else 0))) acc).1) := by
  induction L with
  | nil => intro acc; exact Relation.ReflTransGen.refl
  | cons x L ih =>
    intro acc
    rw [List.foldl_cons]
    exact Relation.ReflTransGen.head (Step.sweepOne acc.1 x.id now)
      (ih ((acc.1.sweepOne x.id now).1,
        acc.2 + (if (acc.1.sweepOne x.id now).2 then 1 else 0)))

lemma sweep_steps (s : Store) (cutoff now : Nat) :
    Relation.ReflTransGen Step s (s.sweep cutoff now).1 := by
  simp only [Store.sweep]
  exact sweep_foldl_steps now (s.list_stale cutoff) (s, 0)

lemma applyEv_steps (s : Store) (e : Ev) :
    Relation.ReflTransGen Step s (applyEv s e) := by
  cases e with
  | message src ref d now =>
    simp only [applyEv]
    cases hc : s.create src ref now with
    | mk res s1 =>
      have h1 : Step s s1 := by
        have := Step.create s src ref now
        rw [hc] at this
        exact this
      cases res with
      | created id =>
        exact Relation.ReflTransGen.head h1
          (Relation.ReflTransGen.single (Step.dispatch s1 id d now))
      | duplicateActiveRequest => exact Relation.ReflTransGen.single h1
  | callback a st now =>
    exact Relation.ReflTransGen.single (Step.callback s a st now)
  | sweepTick cutoff now => exact sweep_steps s cutoff now

lemma WF_rtg {s s' : Store} (hs : Relation.ReflTransGen Step s s')
    (hwf : WF s) : WF s' := by
  induction hs with
  | refl => exact hwf
  | tail _ hstep ih => exact WF_step ih hstep

lemma foldl_applyEv_rtg (more : List Ev) :
    ∀ s : Store, Relation.ReflTransGen Step s (more.foldl applyEv s) := by
  induction more with
  | nil => intro s; exact Relation.ReflTransGen.refl
  | cons e more ih =>
    intro s
    rw [List.foldl_cons]
    exact Relation.ReflTransGen.trans (applyEv_steps s e) (ih _)

lemma Reachable_run (evs : List Ev) : Reachable (run evs) :=
  foldl_applyEv_rtg evs Store.empty

lemma terminal_stable_transition {s : Store} (tid : Nat) (e n : RState)
    (f : TFields) (t : Nat) {id : Nat} {r : ParseRequest}
    (hexp : e.isTerminal = false) (h : s.lookup id = some r)
    (ht : r.state.isTerminal = true) :
    (s.transition tid e n f t).2.lookup id = some r := by
  cases hl : s.lookup tid with
  | none => rw [transition_of_none e n f t hl]; exact h
  | some rf =>
    by_cases hst : rf.state = e
    · rw [transition_of_ok e n f t hl hst, lookup_map_updAt, h,
        Option.map_some']
      have hid : r.id ≠ tid := by
        intro hEq
        have hit : id = tid := (lookup_some_id h) ▸ hEq
        rw [hit] at h
        have hrrf : rf = r := Option.some_injective _ (hl.symm.trans h)
        rw [hrrf] at hst
        rw [hst, hexp] at ht
        cases ht
      rw [updAt_of_ne _ _ _ _ _ hid]
    · rw [transition_of_stale e n f t hl hst]; exact h

lemma terminal_stable_step {s s' : Store} (hwf : WF s) (hstep : Step s s')
    {id : Nat} {r : ParseRequest} (h : s.lookup id = some r)
    (ht : r.state.isTerminal = true) : s'.lookup id = some r := by
  cases hstep with
  | create src ref now =>
    have hlt : id < s.nextId := (lookup_some_id h) ▸ hwf.1 r (lookup_some_mem h)
    rw [lookup_create_of_lt hlt]
    exact h
  | dispatch tid d now =>
    cases d <;> simp only [Store.resolveDispatch] <;>
      exact terminal_stable_transition _ _ _ _ _ rfl h ht
  | callback a st now =>
    cases hl : s.lookupByAgent a with
    | none => rw [handleCallback_snd_of_none st now hl]; exact h
    | some rc =>
      rw [handleCallback_of_some st now hl]
      exact terminal_stable_transition _ _ _ _ _ rfl h ht
  | sweepOne tid now =>
    rw [sweepOne_fst]
    exact terminal_stable_transition _ _ _ _ _ rfl h ht

lemma terminal_stable_rtg {s s' : Store}
    (hs : Relation.ReflTransGen Step s s') (hwf : WF s) {id : Nat}
    {r : ParseRequest} (h : s.lookup id = some r)
    (ht : r.state.isTerminal = true) : s'.lookup id = some r := by
  induction hs with
  | refl => exact h
  | tail hab hstep ih => exact terminal_stable_step (WF_rtg hab hwf) hstep ih ht

lemma terminal_stable_foldl (more : List Ev) :
    ∀ (s : Store), WF s → ∀ {id : Nat} {r : ParseRequest},
      s.lookup id = some r → r.state.isTerminal = true →
      (more.foldl applyEv s).lookup id = some r := by
  intro s hwf id r h ht
  exact terminal_stable_rtg (foldl_applyEv_rtg more s) hwf h ht

/-- No record is `pending`: the Ingress Listener resolves dispatch
synchronously, so `pending` is never observable between events
(spec §4.1: "`pending` … instantaneous"). -/
def NoPending (s : Store) : Prop :=
  ∀ r ∈ s.recs, r.state ≠ RState.pending

/-- The record that `create` inserts for a freshly accepted message. -/
def newRec (s : Store) (src : String) (ref : Option String) (now : Nat) :
    ParseRequest :=
  ⟨s.nextId, src, ref, none, RState.pending, none, now, now⟩

lemma create_of_fresh' {s : Store} {src : String} (ref : Option String)
    (now : Nat)
    (h : s.recs.any (fun r => r.source_message_ref = src && isActive r) = false) :
    s.create src ref now = (CreateResult.created s.nextId,
      Store.mk (newRec s src ref now :: s.recs) (s.nextId + 1)) := by
  rw [create_of_fresh ref now h]
  rfl

lemma NoPending_transition_pres {s : Store} (tid : Nat) (e n : RState)
    (f : TFields) (t : Nat) (hn : n ≠ RState.pending) (h : NoPending s) :
    NoPending (s.transition tid e n f t).2 := by
  cases hl : s.lookup tid with
  | none => rw [transition_of_none e n f t hl]; exact h
  | some rf =>
    by_cases hst : rf.state = e
    · rw [transition_of_ok e n f t hl hst]
      intro r' hr'
      rcases List.mem_map.mp hr' with ⟨x, hx, rfl⟩
      by_cases hid : x.id = tid
      · rw [updAt_of_eq _ _ _ _ _ hid, applyFields_state]
        exact hn
      · rw [updAt_of_ne _ _ _ _ _ hid]
        exact h x hx
    · rw [transition_of_stale e n f t hl hst]; exact h

lemma NoPending_sweep_foldl (now : Nat) (L : List ParseRequest) :
    ∀ acc : Store × Nat, NoPending acc.1 →
      NoPending ((L.foldl (fun acc r =>
        let p := acc.1.sweepOne r.id now
        (p.1, acc.2 + (if p.2 then 1 else 0))) acc).1) := by
  induction L with
  | nil => intro acc h; exact h
  | cons x L ih =>
    intro acc h
    rw [List.foldl_cons]
    refine ih _ ?_
    show NoPending (acc.1.sweepOne x.id now).1
    rw [sweepOne_fst]
    exact NoPending_transition_pres _ _ _ _ _ (by intro hc; cases hc) h

lemma NoPending_applyEv {s : Store} (e : Ev) (h : NoPending s) :
    NoPending (applyEv s e) := by
  cases e with
  | message src ref d now =>
    simp only [applyEv]
    cases ha : s.recs.any (fun r => r.source_message_ref = src && isActive r) with
    | true => rw [create_of_dup ref now ha]; exact h
    | false =>
      rw [create_of_fresh' ref now ha]
      simp only
      have hlook : (Store.mk (newRec s src ref now :: s.recs)
          (s.nextId + 1)).lookup s.nextId = some (newRec s src ref now) := by
        simp only [Store.lookup]
        rw [List.find?_cons_of_pos _ (by simp [newRec])]
      have key : ∀ (nst : RState) (f : TFields), nst ≠ RState.pending →
          NoPending ((Store.mk (newRec s src ref now :: s.recs)
            (s.nextId + 1)).transition s.nextId RState.pending nst f now).2 := by
        intro nst f hn
        rw [transition_of_ok RState.pending nst f now hlook rfl]
        intro r' hr'
        rcases List.mem_map.mp hr' with ⟨x, hx, rfl⟩
        by_cases hid : x.id = s.nextId
        · rw [updAt_of_eq _ _ _ _ _ hid, applyFields_state]
          exact hn
        · rw [updAt_of_ne _ _ _ _ _ hid]
          rcases List.mem_cons.mp hx with rfl | hx
          · exact absurd rfl hid
          · exact h x hx
      cases d with
      | success a =>
        simp only [Store.resolveDispatch]
        exact key RState.dispatched ⟨some a, none⟩ (by intro hc; cases hc)
      | agentUnreachable =>
        simp only [Store.resolveDispatch]
        exact key RState.failed TFields.none_ (by intro hc; cases hc)
      | agentRejected =>
        simp only [Store.resolveDispatch]
        exact key RState.failed TFields.none_ (by intro hc; cases hc)
  | callback a st now =>
    simp only [applyEv]
    cases hl : s.lookupByAgent a with
    | none => rw [handleCallback_snd_of_none st now hl]; exact h
    | some rc =>
      rw [handleCallback_of_some st now hl]
      refine NoPending_transition_pres _ _ _ _ _ ?_ h
      cases st <;> intro hc <;> cases hc
  | sweepTick cutoff now =>
    simp only [applyEv, Store.sweep]
    exact NoPending_sweep_foldl now (s.list_stale cutoff) (s, 0) h

lemma NoPending_run (evs : List Ev) : NoPending (run evs) := by
  have : ∀ s : Store, NoPending s → NoPending (evs.foldl applyEv s) := by
    induction evs with
    | nil => intro s h; exact h
    | cons e evs ih =>
      intro s h
      rw [List.foldl_cons]
      exact ih _ (NoPending_applyEv e h)
  exact this Store.empty (by intro r hr; cases hr)

lemma sweep_foldl_terminal (now : Nat) (L : List ParseRequest) :
    ∀ (s : Store) (k : Nat), WF s → NoPending s →
      (∀ r ∈ s.recs, r.state = RState.dispatched → ∃ x ∈ L, x.id = r.id) →
      ∀ r' ∈ ((L.foldl (fun acc r =>
          let p := acc.1.sweepOne r.id now
          (p.1, acc.2 + (if p.2 then 1 else 0))) (s, k)).1).recs,
        r'.state.isTerminal = true := by
  induction L with
  | nil =>
    intro s k hwf hnp hdisp r' hr'
    simp only [List.foldl_nil] at hr'
    rcases hstate : r'.state with _ | _ | _ | _ | _
    · exact absurd hstate (hnp r' hr')
    · rcases hdisp r' hr' hstate with ⟨x, hx, _⟩
      cases hx
    · rfl
    · rfl
    · rfl
  | cons x L ih =>
    intro s k hwf hnp hdisp r' hr'
    rw [List.foldl_cons] at hr'
    refine ih (s.sweepOne x.id now).1 _
      (WF_step hwf (Step.sweepOne s x.id now))
      (by rw [sweepOne_fst]
          exact NoPending_transition_pres _ _ _ _ _ (by intro hc; cases hc) hnp)
      ?_ r' hr'
    intro r hr hd
    rw [sweepOne_fst] at hr
    cases hl : s.lookup x.id with
    | none =>
      rw [transition_of_none _ _ _ _ hl] at hr
      rcases hdisp r hr hd with ⟨y, hy, hyid⟩
      rcases List.mem_cons.mp hy with rfl | hy
      · exfalso
        have := List.find?_eq_none.mp hl r hr
        simp only [decide_eq_true_eq] at this
        exact this hyid.symm
      · exact ⟨y, hy, hyid⟩
    | some rf =>
      by_cases hst : rf.state = RState.dispatched
      · rw [transition_of_ok _ _ _ _ hl hst] at hr
        rcases List.mem_map.mp hr with ⟨z, hz, rfl⟩
        by_cases hid : z.id = x.id
        · rw [updAt_of_eq _ _ _ _ _ hid, applyFields_state] at hd
          cases hd
        · rw [updAt_of_ne _ _ _ _ _ hid] at hd ⊢
          rcases hdisp z hz hd with ⟨y, hy, hyid⟩
          rcases List.mem_cons.mp hy with rfl | hy
          · exact absurd hyid.symm hid
          · exact ⟨y, hy, hyid⟩
      · rw [transition_of_stale _ _ _ _ hl hst] at hr
        rcases hdisp r hr hd with ⟨y, hy, hyid⟩
        rcases List.mem_cons.mp hy with rfl | hy
        · exfalso
          have hreq : r = rf := mem_id_unique hwf hl hr hyid.symm
          rw [hreq] at hd
          exact hst hd
        · exact ⟨y, hy, hyid⟩

lemma sweep_terminal {s : Store} (cutoff now : Nat) (hwf : WF s)
    (hnp : NoPending s)
    (hstale : ∀ r ∈ s.recs, r.state = RState.dispatched → r.updated_at ≤ cutoff) :
    ∀ r' ∈ ((s.sweep cutoff now).1).recs, r'.state.isTerminal = true := by
  simp only [Store.sweep]
  refine sweep_foldl_terminal now (s.list_stale cutoff) s 0 hwf hnp ?_
  intro r hr hd
  refine ⟨r, ?_, rfl⟩
  simp only [Store.list_stale, List.mem_filter]
  exact ⟨hr, by simp [hd, hstale r hr hd]⟩

/-- C1: every accepted request reaches exactly one terminal outcome.
Stability: a request whose state is terminal after any run is returned
unchanged by every continuation of that run, so no second terminal state is
ever assigned.  Liveness: extending any run by one sweeper tick whose
cutoff covers every record leaves every stored (accepted) request in some
terminal state. -/
theorem request_single_terminal_outcome (evs : List Ev) :
    (∀ (more : List Ev) (id : Nat) (r : ParseRequest),
        (run evs).lookup id = some r → r.state.isTerminal = true →
        (run (evs ++ more)).lookup id = some r)
    ∧ (∀ cutoff now : Nat,
        (∀ r ∈ (run evs).recs, r.updated_at ≤ cutoff) →
        ∀ r ∈ (run (evs ++ [Ev.sweepTick cutoff now])).recs,
          r.state.isTerminal = true) := by
  constructor
  · intro more id r h ht
    rw [run_append]
    exact terminal_stable_foldl more (run evs)
      (WF_rtg (Reachable_run evs) WF_empty) h ht
  · intro cutoff now hcut r hr
    rw [run_append] at hr
    simp only [List.foldl_cons, List.foldl_nil, applyEv] at hr
    exact sweep_terminal cutoff now (WF_rtg (Reachable_run evs) WF_empty)
      (NoPending_run evs) (fun r' hr' _ => hcut r' hr') r hr

/-- Witness for C1: after accepting "m1" (dispatched as "a1") and a
completed callback, any continuation — here a sweeper tick — leaves the
request exactly in its `completed` terminal record, and after the tick
every stored request is terminal. -/
theorem request_single_terminal_outcome_witness :
    (run ([Ev.message "m1" (some "s1") (DispatchResult.success "a1") 0,
           Ev.callback "a1" (CbStatus.completed "u") 2]
          ++ [Ev.sweepTick 100 101])).lookup 0
      = some ⟨0, "m1", some "s1", some "a1", RState.completed, some "u", 0, 2⟩
    ∧ (⟨0, "m1", some "s1", some "a1", RState.completed, some "u", 0, 2⟩ :
        ParseRequest).state.isTerminal = true := by
  have h := request_single_terminal_outcome
    [Ev.message "m1" (some "s1") (DispatchResult.success "a1") 0,
     Ev.callback "a1" (CbStatus.completed "u") 2]
  refine ⟨h.1 [Ev.sweepTick 100 101] 0
    ⟨0, "m1", some "s1", some "a1", RState.completed, some "u", 0, 2⟩
    (by decide) (by decide), ?_⟩
  refine h.2 100 101 (by decide)
    ⟨0, "m1", some "s1", some "a1", RState.completed, some "u", 0, 2⟩ ?_
  decide

end WeaveBot

namespace Frontend

/-!
Embedding of the calendar web UI's script (src/unnamed/part_000, the Vue
single-file component): the data types around `CalendarEvent`, the
grouping functions `groupedByDate` / `groupedByDateAndSupplemental`, and
the edit-form state manipulated by `resetUpdateForm` / `onCancelUpdate` /
`submitEditedItem`.  Optional TypeScript fields become `Option`; a
JavaScript object keyed by strings becomes an insertion-ordered
association list.
-/

/-- Type `CalendarLocation` (part_000 lines 301–306). -/
structure CalendarLocation where
  city : Option String
  venue : Option String
  neighborhood : Option String
  deriving DecidableEq, Repr

/-- Type `CalendarMetadata` (part_000 lines 308–313). -/
structure CalendarMetadata where
  deleted : Option Bool
  done : Option Bool
  incoming : Option Bool
  supplemental : Option Bool
  deriving DecidableEq, Repr

/-- Type `CalendarOrganizer` (part_000 lines 315–317). -/
structure CalendarOrganizer where
  name : Option String
  deriving DecidableEq, Repr

/-- Type `CalendarEvent` (part_000 lines 319–331).  `start_datetime` is
declared `string` but the grouping code guards it with
`typeof iso !== 'string'`, so a runtime non-string value is modelled as
`none`. -/
structure CalendarEvent where
  start_datetime : Option String
  grist_record_id : Option Nat
  description : Option String
  title : Option String
  source_url : Option String
  source_url_provider : Option String
  location : Option CalendarLocation
  organizer : Option CalendarOrganizer
  calendar_metadata : Option CalendarMetadata
  deriving DecidableEq, Repr

/-- The key `item?.calendar_metadata?.supplemental || false` (part_000 line 708). -/
def suppKey (e : CalendarEvent) : Bool :=
  (e.calendar_metadata.bind CalendarMetadata.supplemental).getD false

/-- Step `if (!out[dateKey]) out[dateKey] = []; out[dateKey].push(item)`
(part_000 lines 1208–1209): append to the bucket of `k`, creating it at the
end of the object's key order when absent. -/
def pushAssoc (out : List (String × List CalendarEvent)) (k : String)
    (e : CalendarEvent) : List (String × List CalendarEvent) :=
  match out with
  | [] => [(k, [e])]
  | (q, v) :: rest =>
    if q = k then (q, v ++ [e]) :: rest
    else (q, v) :: pushAssoc rest k e

/-- The per-date sub-record `{true: [], false: []}` of
`groupedByDateAndSupplemental` (part_000 line 709). -/
structure SubBuckets where
  btrue : List CalendarEvent
  bfalse : List CalendarEvent
  deriving DecidableEq, Repr

/-- Step `out[dateKey][supplementalKey].push(item)` after the
`{true: [], false: []}` initialization (part_000 lines 709–710). -/
def pushSupp (out : List (String × SubBuckets)) (k : String) (b : Bool)
    (e : CalendarEvent) : List (String × SubBuckets) :=
  match out with
  | [] => [(k, if b then ⟨[e], []⟩ else ⟨[], [e]⟩)]
  | (q, v) :: rest =>
    if q = k then
      (q, if b then { v with btrue := v.btrue ++ [e] }
          else { v with bfalse := v.bfalse ++ [e] }) :: rest
    else (q, v) :: pushSupp rest k b e

/-- One step of `[...].sort(([a], [b]) => a.localeCompare(b))`, modelled as
stable insertion by key into a sorted prefix. -/
def insertByKey {β : Type} (p : String × β) :
    List (String × β) → List (String × β)
  | [] => [p]
  | q :: l => if p.1 ≤ q.1 then p :: q :: l else q :: insertByKey p l

/-- Modelling of `Object.fromEntries(Object.entries(out).sort(([a], [b]) =>
a.localeCompare(b)))` (part_000 lines 714, 1213): entries reordered
ascending by key. -/
def sortByKey {β : Type} : List (String × β) → List (String × β)
  | [] => []
  | p :: l => insertByKey p (sortByKey l)

/-- The loop body of `groupedByDate` (part_000 lines 1203–1210): skip an
event whose `start_datetime` is not a string, otherwise push it into the
bucket of the first 10 characters. -/
def dateStep (out : List (String × List CalendarEvent))
    (item : CalendarEvent) : List (String × List CalendarEvent) :=
  match item.start_datetime with
  | none => out
  | some iso => pushAssoc out (iso.take 10) item

/-- Function `groupedByDate` (part_000 lines 1199–1214): bucket each event whose
`start_datetime` is a string under the first 10 characters of that string,
in payload order, then order the date keys ascending. -/
def groupedByDate (payload : List CalendarEvent) :
    List (String × List CalendarEvent) :=
  sortByKey (payload.foldl dateStep [])

/-- The loop body of `groupedByDateAndSupplemental` (part_000 lines
703–711). -/
def suppStep (out : List (String × SubBuckets)) (item : CalendarEvent) :
    List (String × SubBuckets) :=
  match item.start_datetime with
  | none => out
  | some iso => pushSupp out (iso.take 10) (suppKey item) item

/-- Function `groupedByDateAndSupplemental` (part_000 lines 699–715): as
`groupedByDate`, with each date bucket split by the boolean
`calendar_metadata?.supplemental || false`. -/
def groupedByDateAndSupplemental (payload : List CalendarEvent) :
    List (String × SubBuckets) :=
  sortByKey (payload.foldl suppStep [])

/-- Reading a date's bucket from the grouped object (`out[date]`, absent
keys giving the empty list). -/
def bucketOf (g : List (String × List CalendarEvent)) (k : String) :
    List CalendarEvent :=
  match g.find? (fun p => p.1 = k) with
  | some p => p.2
  | none => []

/-- Reading a date's supplemental or main bucket from the grouped object. -/
def subBucketOf (g : List (String × SubBuckets)) (k : String) (b : Bool) :
    List CalendarEvent :=
  match g.find? (fun p => p.1 = k) with
  | some p => if b then p.2.btrue else p.2.bfalse
  | none => []

/-- The edit-form state of the component: `currentEditEventId`, the
`editedItem*` refs and the update flags (part_000 lines 516–532). -/
structure UIState where
  currentEditEventId : Option Nat
  editedItemTitle : Option String
  editedItemStartDatetime : Option String
  editedItemVenue : Option String
  editedItemNeighborhood : Option String
  editedItemDescription : Option String
  editedItemSourceUrl : Option String
  editedItemSourceUrlProvider : Option String
  editedItemMetadataDeleted : Bool
  editedItemMetadataDone : Bool
  editedItemMetadataIncoming : Bool
  editedItemMetadataSupplemental : Bool
  updateError : Option String
  updateOk : Bool
  deriving DecidableEq, Repr

/-- Function `resetUpdateForm` (part_000 lines 678–692): clears every edited-item
field and the update flags. -/
def resetUpdateForm (st : UIState) : UIState :=
  { st with
    editedItemTitle := none,
    editedItemStartDatetime := none,
    editedItemVenue := none,
    editedItemNeighborhood := none,
    editedItemDescription := none,
    editedItemSourceUrl := none,
    editedItemSourceUrlProvider := none,
    editedItemMetadataDeleted := false,
    editedItemMetadataDone := false,
    editedItemMetadataIncoming := false,
    editedItemMetadataSupplemental := false,
    updateError := none,
    updateOk := false }

/-- Function `onCancelUpdate` (part_000 lines 694–697).  The body's first statement
is the bare expression `resetUpdateForm` — a reference without a call, a
no-op — so only `currentEditEventId` is cleared. -/
def onCancelUpdate (st : UIState) : UIState :=
  { st with currentEditEventId := none }

/-- The success path of `submitEditedItem` (part_000 lines 647–648): here
`resetUpdateForm()` is actually invoked, then `currentEditEventId` is
cleared. -/
def submitEditedItemSuccess (st : UIState) : UIState :=
  { resetUpdateForm st with currentEditEventId := none }

/-! ### Lemmas for C9 -/

lemma bucketOf_nil (k : String) : bucketOf [] k = [] := rfl

lemma bucketOf_cons (q : String × List CalendarEvent)
    (out : List (String × List CalendarEvent)) (k : String) :
    bucketOf (q :: out) k = if q.1 = k then q.2 else bucketOf out k := by
  by_cases h : q.1 = k <;> simp [bucketOf, List.find?_cons, h]

lemma subBucketOf_nil (k : String) (b : Bool) : subBucketOf [] k b = [] := rfl

lemma subBucketOf_cons (q : String × SubBuckets)
    (out : List (String × SubBuckets)) (k : String) (b : Bool) :
    subBucketOf (q :: out) k b
      = if q.1 = k then (if b then q.2.btrue else q.2.bfalse)
        else subBucketOf out k b := by
  by_cases h : q.1 = k <;> simp [subBucketOf, List.find?_cons, h]

lemma bucketOf_pushAssoc (out : List (String × List CalendarEvent))
    (k : String) (e : CalendarEvent) (k' : String) :
    bucketOf (pushAssoc out k e) k'
      = bucketOf out k' ++ (if k = k' then [e] else []) := by
  induction out with
  | nil =>
    by_cases h : k = k' <;>
      simp [pushAssoc, bucketOf_cons, bucketOf_nil, h]
  | cons q out ih =>
    rcases q with ⟨qk, qv⟩
    by_cases hq : qk = k
    · subst hq
      simp only [pushAssoc, if_pos rfl]
      by_cases hk' : qk = k' <;> simp [bucketOf_cons, hk']
    · simp only [pushAssoc, if_neg hq]
      by_cases hk' : qk = k'
      · have hkk' : k ≠ k' := fun hh => hq (hk'.trans hh.symm)
        simp [bucketOf_cons, hk', hkk']
      · simp [bucketOf_cons, hk', ih]

lemma subBucketOf_pushSupp (out : List (String × SubBuckets)) (k : String)
    (b : Bool) (e : CalendarEvent) (k' : String) (b' : Bool) :
    subBucketOf (pushSupp out k b e) k' b'
      = subBucketOf out k' b' ++ (if k = k' ∧ b = b' then [e] else []) := by
  induction out with
  | nil =>
    by_cases hk : k = k'
    · cases b <;> cases b' <;>
        simp [pushSupp, subBucketOf_cons, subBucketOf_nil, hk]
    · cases b <;> cases b' <;>
        simp [pushSupp, subBucketOf_cons, subBucketOf_nil, hk]
  | cons q out ih =>
    rcases q with ⟨qk, qv⟩
    by_cases hq : qk = k
    · subst hq
      simp only [pushSupp, if_pos rfl]
      by_cases hk' : qk = k'
      · cases b <;> cases b' <;> simp [subBucketOf_cons, hk']
      · cases b <;> cases b' <;> simp [subBucketOf_cons, hk']
    · simp only [pushSupp, if_neg hq]
      by_cases hk' : qk = k'
      · have hkk' : ¬(k = k' ∧ b = b') := fun hh => hq (hk'.trans hh.1.symm)
        simp [subBucketOf_cons, hk', hkk']
      · simp [subBucketOf_cons, hk', ih]

lemma bucketOf_foldl (k' : String) (payload : List CalendarEvent) :
    ∀ out, bucketOf (payload.foldl dateStep out) k'
      = bucketOf out k'
        ++ payload.filter (fun e =>
            match e.start_datetime with
            | some iso => decide (iso.take 10 = k')
            | none => false) := by
  induction payload with
  | nil => intro out; simp
  | cons e payload ih =>
    intro out
    rw [List.foldl_cons, ih]
    cases hsd : e.start_datetime with
    | none => simp [dateStep, hsd, List.filter_cons]
    | some iso =>
      simp only [dateStep, hsd]
      rw [bucketOf_pushAssoc]
      by_cases h : iso.take 10 = k' <;>
        simp [List.filter_cons, hsd, h]

lemma subBucketOf_foldl (k' : String) (b' : Bool)
    (payload : List CalendarEvent) :
    ∀ out, subBucketOf (payload.foldl suppStep out) k' b'
      = subBucketOf out k' b'
        ++ payload.filter (fun e =>
            match e.start_datetime with
            | some iso => decide (iso.take 10 = k') && decide (suppKey e = b')
            | none => false) := by
  induction payload with
  | nil => intro out; simp
  | cons e payload ih =>
    intro out
    rw [List.foldl_cons, ih]
    cases hsd : e.start_datetime with
    | none => simp [suppStep, hsd, List.filter_cons]
    | some iso =>
      simp only [suppStep, hsd]
      rw [subBucketOf_pushSupp]
      by_cases h : iso.take 10 = k'
      · by_cases hb : suppKey e = b' <;>
          simp [List.filter_cons, hsd, h, hb]
      · simp [List.filter_cons, hsd, h]

lemma insertByKey_perm {β : Type} (p : String × β) (l : List (String × β)) :
    (insertByKey p l).Perm (p :: l) := by
  induction l with
  | nil => exact List.Perm.refl _
  | cons q l ih =>
    simp only [insertByKey]
    by_cases hle : p.1 ≤ q.1
    · rw [if_pos hle]
    · rw [if_neg hle]
      exact List.Perm.trans (List.Perm.cons q ih) (List.Perm.swap p q l)

lemma sortByKey_perm {β : Type} (l : List (String × β)) :
    (sortByKey l).Perm l := by
  induction l with
  | nil => exact List.Perm.refl _
  | cons p l ih =>
    exact List.Perm.trans (insertByKey_perm p (sortByKey l))
      (List.Perm.cons p ih)

lemma key_entry_unique {β : Type} {l : List (String × β)}
    {q q' : String × β} (hnd : (l.map Prod.fst).Nodup) (hq : q ∈ l)
    (hq' : q' ∈ l) (hk : q.1 = q'.1) : q = q' := by
  by_contra hne
  have hp : l.Pairwise (fun a b : String × β => a.1 ≠ b.1) :=
    (List.pairwise_map.mp hnd)
  exact (hp.forall (fun {x y} hxy => Ne.symm hxy) hq hq' hne) hk

lemma find?_key_eq_of_perm {β : Type} {l l' : List (String × β)}
    (hperm : l.Perm l') (hnd : (l.map Prod.fst).Nodup) (k : String) :
    l.find? (fun p => p.1 = k) = l'.find? (fun p => p.1 = k) := by
  cases hf : l.find? (fun p => p.1 = k) with
  | none =>
    cases hf' : l'.find? (fun p => p.1 = k) with
    | none => rfl
    | some q =>
      exfalso
      have hqm : q ∈ l := hperm.mem_iff.mpr (List.mem_of_find?_eq_some hf')
      have hpq := List.find?_some hf'
      exact (List.find?_eq_none.mp hf q hqm) hpq
  | some q =>
    have hqm : q ∈ l := List.mem_of_find?_eq_some hf
    have hqm' : q ∈ l' := hperm.mem_iff.mp hqm
    cases hf' : l'.find? (fun p => p.1 = k) with
    | none =>
      exfalso
      have hpq := List.find?_some hf
      exact (List.find?_eq_none.mp hf' q hqm') hpq
    | some q' =>
      have hq'm : q' ∈ l := hperm.mem_iff.mpr (List.mem_of_find?_eq_some hf')
      have hkq : q.1 = k := by simpa using List.find?_some hf
      have hkq' : q'.1 = k := by simpa using List.find?_some hf'
      rw [key_entry_unique hnd hqm hq'm (hkq.trans hkq'.symm)]

lemma mem_insertByKey {β : Type} {x p : String × β} {l : List (String × β)} :
    x ∈ insertByKey p l ↔ x = p ∨ x ∈ l := by
  induction l with
  | nil => simp [insertByKey]
  | cons q l ih =>
    simp only [insertByKey]
    by_cases hle : p.1 ≤ q.1
    · rw [if_pos hle]
      simp [or_comm, or_assoc, or_left_comm]
    · rw [if_neg hle]
      simp [ih]
      tauto

lemma pairwise_insertByKey {β : Type} (p : String × β)
    (l : List (String × β))
    (h : l.Pairwise (fun a b : String × β => a.1 ≤ b.1)) :
    (insertByKey p l).Pairwise (fun a b : String × β => a.1 ≤ b.1) := by
  induction l with
  | nil => simp [insertByKey]
  | cons q l ih =>
    simp only [insertByKey]
    by_cases hle : p.1 ≤ q.1
    · rw [if_pos hle]
      refine List.pairwise_cons.mpr ⟨?_, h⟩
      intro b hb
      rcases List.mem_cons.mp hb with rfl | hb
      · exact hle
      · exact le_trans hle ((List.pairwise_cons.mp h).1 b hb)
    · rw [if_neg hle]
      refine List.pairwise_cons.mpr ⟨?_, ih (List.pairwise_cons.mp h).2⟩
      intro b hb
      rcases mem_insertByKey.mp hb with rfl | hb
      · exact le_of_not_le hle
      · exact (List.pairwise_cons.mp h).1 b hb

lemma pairwise_sortByKey {β : Type} (l : List (String × β)) :
    (sortByKey l).Pairwise (fun a b : String × β => a.1 ≤ b.1) := by
  induction l with
  | nil => exact List.Pairwise.nil
  | cons p l ih => exact pairwise_insertByKey p (sortByKey l) ih

lemma key_mem_pushAssoc {out : List (String × List CalendarEvent)}
    {k x : String} {e : CalendarEvent}
    (h : x ∈ (pushAssoc out k e).map Prod.fst) :
    x ∈ out.map Prod.fst ∨ x = k := by
  induction out with
  | nil => simpa [pushAssoc] using h
  | cons q out ih =>
    rcases q with ⟨qk, qv⟩
    by_cases hq : qk = k
    · simp only [pushAssoc, if_pos hq] at h
      exact Or.inl (by simpa using h)
    · simp only [pushAssoc, if_neg hq, List.map_cons, List.mem_cons] at h
      rcases h with rfl | h
      · simp
      · rcases ih h with hm | rfl
        · exact Or.inl (by simp [hm])
        · exact Or.inr rfl

lemma keys_pushAssoc_nodup {out : List (String × List CalendarEvent)}
    (k : String) (e : CalendarEvent)
    (h : (out.map Prod.fst).Nodup) :
    ((pushAssoc out k e).map Prod.fst).Nodup := by
  induction out with
  | nil => simp [pushAssoc]
  | cons q out ih =>
    rcases q with ⟨qk, qv⟩
    simp only [List.map_cons, List.nodup_cons] at h
    obtain ⟨hqk, hnd⟩ := h
    by_cases hq : qk = k
    · simp only [pushAssoc, if_pos hq, List.map_cons, List.nodup_cons]
      exact ⟨hqk, hnd⟩
    · simp only [pushAssoc, if_neg hq, List.map_cons, List.nodup_cons]
      refine ⟨?_, ih hnd⟩
      intro hmem
      rcases key_mem_pushAssoc hmem with hm | rfl
      · exact hqk hm
      · exact hq rfl

lemma key_mem_pushSupp {out : List (String × SubBuckets)} {k x : String}
    {b : Bool} {e : CalendarEvent}
    (h : x ∈ (pushSupp out k b e).map Prod.fst) :
    x ∈ out.map Prod.fst ∨ x = k := by
  induction out with
  | nil => simpa [pushSupp] using h
  | cons q out ih =>
    rcases q with ⟨qk, qv⟩
    by_cases hq : qk = k
    · simp only [pushSupp, if_pos hq] at h
      exact Or.inl (by simpa using h)
    · simp only [pushSupp, if_neg hq, List.map_cons, List.mem_cons] at h
      rcases h with rfl | h
      · simp
      · rcases ih h with hm | rfl
        · exact Or.inl (by simp [hm])
        · exact Or.inr rfl

lemma keys_pushSupp_nodup {out : List (String × SubBuckets)} (k : String)
    (b : Bool) (e : CalendarEvent) (h : (out.map Prod.fst).Nodup) :
    ((pushSupp out k b e).map Prod.fst).Nodup := by
  induction out with
  | nil => simp [pushSupp]
  | cons q out ih =>
    rcases q with ⟨qk, qv⟩
    simp only [List.map_cons, List.nodup_cons] at h
    obtain ⟨hqk, hnd⟩ := h
    by_cases hq : qk = k
    · simp only [pushSupp, if_pos hq, List.map_cons, List.nodup_cons]
      exact ⟨hqk, hnd⟩
    · simp only [pushSupp, if_neg hq, List.map_cons, List.nodup_cons]
      refine ⟨?_, ih hnd⟩
      intro hmem
      rcases key_mem_pushSupp hmem with hm | rfl
      · exact hqk hm
      · exact hq rfl

lemma keys_foldl_dateStep_nodup (payload : List CalendarEvent) :
    ∀ out, (out.map Prod.fst).Nodup →
      ((payload.foldl dateStep out).map Prod.fst).Nodup := by
  induction payload with
  | nil => intro out h; exact h
  | cons e payload ih =>
    intro out h
    rw [List.foldl_cons]
    refine ih _ ?_
    cases hsd : e.start_datetime with
    | none => simpa [dateStep, hsd] using h
    | some iso =>
      simp only [dateStep, hsd]
      exact keys_pushAssoc_nodup _ _ h

lemma keys_foldl_suppStep_nodup (payload : List CalendarEvent) :
    ∀ out, (out.map Prod.fst).Nodup →
      ((payload.foldl suppStep out).map Prod.fst).Nodup := by
  induction payload with
  | nil => intro out h; exact h
  | cons e payload ih =>
    intro out h
    rw [List.foldl_cons]
    refine ih _ ?_
    cases hsd : e.start_datetime with
    | none => simpa [suppStep, hsd] using h
    | some iso =>
      simp only [suppStep, hsd]
      exact keys_pushSupp_nodup _ _ _ h

lemma pairwise_lt_of_le_nodup {l : List String}
    (hle : l.Pairwise (· ≤ ·)) (hnd : l.Nodup) : l.Pairwise (· < ·) := by
  induction l with
  | nil => exact List.Pairwise.nil
  | cons a l ih =>
    obtain ⟨h1, h2⟩ := List.pairwise_cons.mp hle
    obtain ⟨h3, h4⟩ := List.nodup_cons.mp hnd
    refine List.pairwise_cons.mpr ⟨?_, ih h2 h4⟩
    intro b hb
    exact lt_of_le_of_ne (h1 b hb) (by intro hEq; exact h3 (hEq ▸ hb))

/-- C9: for every payload, the grouped objects are exactly the per-date
(and, in the supplemental variant, per-flag) filters of the payload — each
event with a string `start_datetime` lands in exactly the bucket keyed by
its first 10 characters (sub-keyed by `calendar_metadata?.supplemental ||
false`), events without a string `start_datetime` are dropped, input order
is preserved inside every bucket — and the date keys are strictly
ascending in lexicographic order. -/
theorem grouping_correct (payload : List CalendarEvent) (k : String)
    (b : Bool) :
    subBucketOf (groupedByDateAndSupplemental payload) k b
      = payload.filter (fun e =>
          match e.start_datetime with
          | some iso => decide (iso.take 10 = k) && decide (suppKey e = b)
          | none => false)
    ∧ bucketOf (groupedByDate payload) k
      = payload.filter (fun e =>
          match e.start_datetime with
          | some iso => decide (iso.take 10 = k)
          | none => false)
    ∧ ((groupedByDateAndSupplemental payload).map Prod.fst).Pairwise (· < ·)
    ∧ ((groupedByDate payload).map Prod.fst).Pairwise (· < ·) := by
  have hnd1 : ((payload.foldl suppStep []).map Prod.fst).Nodup :=
    keys_foldl_suppStep_nodup payload [] (by simp)
  have hnd2 : ((payload.foldl dateStep []).map Prod.fst).Nodup :=
    keys_foldl_dateStep_nodup payload [] (by simp)
  have hndS : ((sortByKey (payload.foldl suppStep [])).map Prod.fst).Nodup :=
    ((sortByKey_perm _).map Prod.fst).nodup_iff.mpr hnd1
  have hndD : ((sortByKey (payload.foldl dateStep [])).map Prod.fst).Nodup :=
    ((sortByKey_perm _).map Prod.fst).nodup_iff.mpr hnd2
  refine ⟨?_, ?_, ?_, ?_⟩
  · have h1 : subBucketOf (groupedByDateAndSupplemental payload) k b
        = subBucketOf (payload.foldl suppStep []) k b := by
      simp only [groupedByDateAndSupplemental, subBucketOf]
      rw [find?_key_eq_of_perm (sortByKey_perm _) hndS k]
    rw [h1, subBucketOf_foldl k b payload []]
    rfl
  · have h1 : bucketOf (groupedByDate payload) k
        = bucketOf (payload.foldl dateStep []) k := by
      simp only [groupedByDate, bucketOf]
      rw [find?_key_eq_of_perm (sortByKey_perm _) hndD k]
    rw [h1, bucketOf_foldl k payload []]
    rfl
  · refine pairwise_lt_of_le_nodup ?_ hndS
    exact List.pairwise_map.mpr (pairwise_sortByKey _)
  · refine pairwise_lt_of_le_nodup ?_ hndD
    exact List.pairwise_map.mpr (pairwise_sortByKey _)

/-- C10: `onCancelUpdate` clears `currentEditEventId` but — because its
body only references `resetUpdateForm` without invoking it — leaves every
edited-item form field and metadata flag at its prior value; only the
success path of `submitEditedItem`, which does invoke `resetUpdateForm()`,
resets those fields. -/
theorem onCancelUpdate_preserves_form (st : UIState) :
    (onCancelUpdate st).currentEditEventId = none
    ∧ (onCancelUpdate st).editedItemTitle = st.editedItemTitle
    ∧ (onCancelUpdate st).editedItemStartDatetime = st.editedItemStartDatetime
    ∧ (onCancelUpdate st).editedItemVenue = st.editedItemVenue
    ∧ (onCancelUpdate st).editedItemNeighborhood = st.editedItemNeighborhood
    ∧ (onCancelUpdate st).editedItemDescription = st.editedItemDescription
    ∧ (onCancelUpdate st).editedItemSourceUrl = st.editedItemSourceUrl
    ∧ (onCancelUpdate st).editedItemSourceUrlProvider
        = st.editedItemSourceUrlProvider
    ∧ (onCancelUpdate st).editedItemMetadataDeleted
        = st.editedItemMetadataDeleted
    ∧ (onCancelUpdate st).editedItemMetadataDone = st.editedItemMetadataDone
    ∧ (onCancelUpdate st).editedItemMetadataIncoming
        = st.editedItemMetadataIncoming
    ∧ (onCancelUpdate st).editedItemMetadataSupplemental
        = st.editedItemMetadataSupplemental
    ∧ (submitEditedItemSuccess st).currentEditEventId = none
    ∧ (submitEditedItemSuccess st).editedItemTitle = none
    ∧ (submitEditedItemSuccess st).editedItemStartDatetime = none
    ∧ (submitEditedItemSuccess st).editedItemVenue = none
    ∧ (submitEditedItemSuccess st).editedItemNeighborhood = none
    ∧ (submitEditedItemSuccess st).editedItemDescription = none
    ∧ (submitEditedItemSuccess st).editedItemSourceUrl = none
    ∧ (submitEditedItemSuccess st).editedItemSourceUrlProvider = none
    ∧ (submitEditedItemSuccess st).editedItemMetadataDeleted = false
    ∧ (submitEditedItemSuccess st).editedItemMetadataDone = false
    ∧ (submitEditedItemSuccess st).editedItemMetadataIncoming = false
    ∧ (submitEditedItemSuccess st).editedItemMetadataSupplemental = false :=
  ⟨rfl, rfl, rfl, rfl, rfl, rfl, rfl, rfl, rfl, rfl, rfl, rfl, rfl, rfl,
   rfl, rfl, rfl, rfl, rfl, rfl, rfl, rfl, rfl, rfl⟩

end Frontend
